import Mathlib

/-!
Verification development for the Monte-Carlo portfolio optimiser
(`monte_carlo.py`, `app.py`).

The numeric idealisation: Python floats are modelled by `ℚ` where the code
only adds, multiplies, divides and compares (return computation, frequency
inference, the risk/goal selector), and by `ℝ` where a square root is taken
(the portfolio scorer, the simulation engine, horizon scaling).  The one
place where IEEE division by zero is observable (the unguarded `Sharpe_h`
division in `app.py`) is modelled explicitly with an `FVal` type carrying
`+inf`, `-inf` and `NaN`.
-/

namespace PortfolioOpt

/-! ### ReturnSeriesBuilder: `compute_returns` (monte_carlo.py lines 21-37) -/

/-- One row of `prices.pct_change()`: elementwise `(cur - prev) / prev`
between two consecutive price rows. -/
def pctRow (prev cur : List ℚ) : List ℚ :=
  (prev.zip cur).map fun q => (q.2 - q.1) / q.1

/-- `compute_returns(prices) = prices.pct_change().dropna()`.

`pct_change` makes row 0 all-NaN and row `i` (`i ≥ 1`) the percentage change
from row `i-1`; `dropna` removes the all-NaN first row, which is exactly
pairing each row with its successor.  (A zero price would produce a float
`inf`/`NaN` cell; the theorems below therefore assume nonzero prices.) -/
def compute_returns (prices : List (List ℚ)) : List (List ℚ) :=
  (prices.zip (prices.drop 1)).map fun p => pctRow p.1 p.2

/-- Error kinds named by the specification (§7); the source never raises
them. -/
inductive SpecError where
  | insufficientData
  | invalidParameter
  deriving DecidableEq

/-- Modelled from the spec: §4.1 "Input must have ≥2 rows; fails with
`InsufficientDataError` otherwise", around the source `compute_returns`. -/
def computeReturnsSpec (prices : List (List ℚ)) : Except SpecError (List (List ℚ)) :=
  if prices.length < 2 then .error .insufficientData else .ok (compute_returns prices)

/-! ### ReturnSeriesBuilder: `infer_periods_per_year` (monte_carlo.py lines 40-72) -/

/-- Consecutive differences of a timestamp index (timestamps as integer
day numbers). -/
def diffs (idx : List ℤ) : List ℤ :=
  (idx.zip (idx.drop 1)).map fun p => p.2 - p.1

/-- The pandas frequency alias for a constant step of `d` days that is a
multiple of 7: `"W-SUN"` for one week, `"{k}W-SUN"` for `k` weeks (the
anchor weekday depends on the start date; only the prefix matters to the
caller). -/
def weeklyName (d : ℤ) : String :=
  if d = 7 then "W-SUN" else toString (d / 7) ++ "W-SUN"

/-- The pandas frequency alias for a constant step of `d` days: `"D"` for
one day, a weekly alias for multiples of 7 days, and the plain multiple
alias (for example `"30D"`) otherwise. -/
def classifyStep (d : ℤ) : Option String :=
  if d = 1 then some "D"
  else if d % 7 == 0 then some (weeklyName d)
  else some (toString d ++ "D")

/-- Modelled from the behaviour of `pandas.infer_freq` on an index with a
constant whole-day step: fewer than 3 timestamps raise (caught by the
caller, giving `none`); otherwise the alias of the constant step.
Non-constant spacing (calendar-anchored patterns such as business-daily or
month-end indexes) is not modelled (`none`). -/
def infer_freq (idx : List ℤ) : Option String :=
  if idx.length < 3 then none
  else
    match diffs idx with
    | [] => none
    | d :: rest => if rest.all (· == d) then classifyStep d else none

/-- The frequency-string classification of `infer_periods_per_year`
(monte_carlo.py lines 62-72): uppercase the alias; `B`/`D` prefixes map to
252, `W` to 52, `M` to 12, anything else (including `None`) to 252.  The
prefixes tested by the source are all single characters, so
`freq.upper().startswith(c)` is "the first character, uppercased, is `c`"
(and `False` on the empty string, which also falls to the default). -/
def freq_to_periods : Option String → ℚ
  | none => 252
  | some f =>
    let c := (f.data.map Char.toUpper).headD ' '
    if c = 'B' || c = 'D' then 252
    else if c = 'W' then 52
    else if c = 'M' then 12
    else 252

/-- `infer_periods_per_year(index)`: classify the frequency inferred by
pandas from the index. -/
def infer_periods_per_year (idx : List ℤ) : ℚ :=
  freq_to_periods (infer_freq idx)

/-- Modelled from the spec: §4.1 `inferFrequency` "if the inferred step is
≤2 days treat as daily (252/yr); ~7 days → weekly (52/yr); ~28–31 days →
monthly (12/yr); otherwise default to 252/yr", as a pure classification of
the constant step `d` in days. -/
def inferFrequencySpec (d : ℤ) : ℚ :=
  if d ≤ 2 then 252 else if d = 7 then 52 else if 28 ≤ d ∧ d ≤ 31 then 12 else 252

/-! ### PortfolioSampler: `rng.dirichlet(np.ones(n))` (monte_carlo.py line 115) -/

/-- The caller-supplied random stream (`np.random.default_rng(seed)`), as
the sequence of standard Gamma(1,1) = Exponential(1) variates that numpy's
`dirichlet` consumes; such variates are strictly positive. -/
structure RngStream where
  draw : ℕ → ℝ
  draw_pos : ∀ k, 0 < draw k

/-- Trial `i` of `rng.dirichlet(np.ones(nAssets))`: draw `nAssets`
Gamma(1,1) variates from the stream and normalise by their sum. -/
noncomputable def dirichletDraw (g : RngStream) (nAssets : ℕ) (i : ℕ) : List ℝ :=
  let raw := (List.range nAssets).map fun j => g.draw (i * nAssets + j)
  raw.map fun x => x / raw.sum

/-- A concrete stream (every variate equal to 1), used to instantiate the
universally quantified theorems below. -/
noncomputable def unitStream : RngStream :=
  ⟨fun _ => 1, fun _ => one_pos⟩

/-! ### PortfolioScorer (monte_carlo.py lines 117-121) -/

/-- `np.dot` of two vectors. -/
noncomputable def dotR (xs ys : List ℝ) : ℝ :=
  ((xs.zip ys).map fun p => p.1 * p.2).sum

/-- `np.dot(weights.T, np.dot(cov_matrix, weights))`: the quadratic form
`w' · M · w` (`np.dot(M, w)` maps each row of `M` to its dot with `w`). -/
noncomputable def quadForm (w : List ℝ) (M : List (List ℝ)) : ℝ :=
  dotR w (M.map fun row => dotR row w)

structure Score where
  ret : ℝ
  vol : ℝ
  sharpe : ℝ

/-- The per-trial scoring block of `simulate_portfolios`:
`port_return = np.dot(weights, mean_returns)`,
`port_vol = sqrt(w' · cov · w)`,
`sharpe = (port_return - rf_rate) / port_vol if port_vol > 0 else 0.0`. -/
noncomputable def score (w mu : List ℝ) (M : List (List ℝ)) (rf : ℝ) : Score :=
  let r := dotR w mu
  let v := Real.sqrt (quadForm w M)
  { ret := r, vol := v, sharpe := if 0 < v then (r - rf) / v else 0 }

/-! ### SimulationEngine: `simulate_portfolios` (monte_carlo.py lines 75-153) -/

/-- The column count of the returns frame (`len(returns.columns)`), read
off the row width.  (A pandas frame with columns but zero rows is not
representable here: a rowless `rets` has width 0, so theorems about the
degenerate-statistics path assume at least one asset.) -/
def numAssets (rets : List (List ℝ)) : ℕ :=
  (rets.headD []).length

/-- A float statistic of the simulation engine: a real number or `NaN`.
The engine's means and covariances are finite or NaN — never infinite —
so no infinities are modelled here. -/
inductive RStat where
  | val (x : ℝ)
  | nan

/-- Scaling a statistic by a finite float (`* periods`): NaN propagates. -/
noncomputable def RStat.scale : RStat → ℝ → RStat
  | .val a, r => .val (a * r)
  | .nan, _ => .nan

/-- Float addition of statistics: NaN propagates. -/
noncomputable def RStat.add : RStat → RStat → RStat
  | .val a, .val b => .val (a + b)
  | _, _ => .nan

/-- `np.sqrt` on a statistic: NaN propagates.  (On a strictly negative
real `np.sqrt` would also give NaN; the engine only takes square roots of
exact sample-covariance quadratic forms, which are nonnegative, so that
case cannot arise.) -/
noncomputable def RStat.sqrtS : RStat → RStat
  | .val a => .val (Real.sqrt a)
  | .nan => .nan

/-- `np.dot` of a finite float vector with a statistics vector: the sum of
elementwise products, NaN-propagating (the dot of empty vectors is 0.0). -/
noncomputable def dotS (xs : List ℝ) (ys : List RStat) : RStat :=
  ((xs.zip ys).map fun p => RStat.scale p.2 p.1).foldr RStat.add (.val 0)

/-- Column mean: `returns.mean()` for column `j` — NaN on a rowless frame
(pandas mean of an empty column). -/
noncomputable def colMean (rets : List (List ℝ)) (j : ℕ) : RStat :=
  if rets.length = 0 then .nan
  else .val (((rets.map fun row => row.getD j 0).sum) / rets.length)

/-- `mean_returns = returns.mean() * periods`. -/
noncomputable def mean_returns (rets : List (List ℝ)) (periods : ℝ) : List RStat :=
  (List.range (numAssets rets)).map fun j => (colMean rets j).scale periods

/-- One entry of the sample covariance `returns.cov()` (pandas `ddof = 1`):
with fewer than 2 rows the `n - ddof ≤ 0` denominator makes the entry NaN. -/
noncomputable def covEntry (rets : List (List ℝ)) (j k : ℕ) : RStat :=
  if rets.length < 2 then .nan
  else
    .val
      (((rets.map fun row =>
          (row.getD j 0 - ((rets.map fun r => r.getD j 0).sum) / rets.length) *
          (row.getD k 0 - ((rets.map fun r => r.getD k 0).sum) / rets.length)).sum) /
        ((rets.length : ℝ) - 1))

/-- `cov_matrix = returns.cov() * periods`. -/
noncomputable def cov_matrix (rets : List (List ℝ)) (periods : ℝ) :
    List (List RStat) :=
  (List.range (numAssets rets)).map fun j =>
    (List.range (numAssets rets)).map fun k => (covEntry rets j k).scale periods

/-- One row of the results table: `Return`, `Volatility`, `Sharpe` and the
per-ticker weights.  `Return`/`Volatility` are NaN whenever the mean or
covariance statistics are (degenerate input frames); `Sharpe` is always a
finite float, because a NaN volatility fails the IEEE `> 0` comparison and
takes the `else 0.0` branch of the guard. -/
structure TrialRecord where
  ret : RStat
  vol : RStat
  sharpe : ℝ
  weights : List ℝ

/-- `sharpe = (port_return - rf_rate) / port_vol if port_vol > 0 else 0.0`
on possibly-NaN statistics: a NaN volatility makes the comparison false
(IEEE), giving 0.0.  A NaN return only ever occurs alongside a NaN
volatility, so the quotient taken in the true-branch is finite. -/
noncomputable def sharpeOf (ret vol : RStat) (rf : ℝ) : ℝ :=
  match ret, vol with
  | .val r, .val v => if 0 < v then (r - rf) / v else 0
  | _, _ => 0

/-- The failure modes of `simulate_portfolios` — both unhandled pandas
errors, not typed validation errors (the source performs no parameter
validation): `idxmax` on an empty results table raises, and
`idxmin`/`df.loc` on an all-NaN `Volatility` column fails. -/
inductive SimError where
  | emptyArgmax
  | allNanIdxmin
  deriving DecidableEq

/-- The return value of `simulate_portfolios`: the results table plus the
`max_sharpe` / `min_vol` reference records. -/
structure SimResult where
  records : List TrialRecord
  max_sharpe : TrialRecord
  min_vol : TrialRecord

/-- First-occurrence running minimum by key: keep the current best unless a
strictly smaller key appears (pandas `idxmin` semantics). -/
def argminGo {α : Type} {β : Type} [LinearOrder β] (f : α → β) (best : α) :
    List α → α
  | [] => best
  | x :: xs => if f x < f best then argminGo f x xs else argminGo f best xs

/-- `Series.idxmin`, returned as the record at that label: the first element
attaining the minimal key, `none` on an empty table. -/
def argminBy {α : Type} {β : Type} [LinearOrder β] (f : α → β) :
    List α → Option α
  | [] => none
  | x :: xs => some (argminGo f x xs)

/-- First-occurrence running maximum by key (pandas `idxmax` semantics). -/
def argmaxGo {α : Type} {β : Type} [LinearOrder β] (f : α → β) (best : α) :
    List α → α
  | [] => best
  | x :: xs => if f best < f x then argmaxGo f x xs else argmaxGo f best xs

/-- `Series.idxmax`, returned as the record at that label. -/
def argmaxBy {α : Type} {β : Type} [LinearOrder β] (f : α → β) :
    List α → Option α
  | [] => none
  | x :: xs => some (argmaxGo f x xs)

/-- Running first-occurrence minimum over a possibly-NaN float key,
skipping NaN entries (`Series.idxmin` keeps the default `skipna=True`). -/
noncomputable def argminStatGo {α : Type} (f : α → RStat) (best : α) (bv : ℝ) :
    List α → α
  | [] => best
  | x :: xs =>
    match f x with
    | .nan => argminStatGo f best bv xs
    | .val v => if v < bv then argminStatGo f x v xs else argminStatGo f best bv xs

/-- `Series.idxmin` followed by `df.loc`: the first element attaining the
minimal non-NaN key; `none` when the column is empty or all-NaN (where the
real pandas call raises / the NaN label fails in `.loc`). -/
noncomputable def argminStat {α : Type} (f : α → RStat) : List α → Option α
  | [] => none
  | x :: xs =>
    match f x with
    | .nan => argminStat f xs
    | .val v => some (argminStatGo f x v xs)

/-- Trial `i` of the simulation loop (monte_carlo.py lines 113-126). -/
noncomputable def trialRecord (g : RngStream) (nA : ℕ) (mu : List RStat)
    (M : List (List RStat)) (rf : ℝ) (i : ℕ) : TrialRecord :=
  let w := dirichletDraw g nA i
  let ret := dotS w mu
  let variance := dotS w (M.map fun row => dotS w row)
  let vol := variance.sqrtS
  { ret := ret, vol := vol, sharpe := sharpeOf ret vol rf, weights := w }

/-- The `n_portfolios` rows of the results table, in draw order. -/
noncomputable def simRecords (rets : List (List ℝ)) (index : List ℤ) (rf : ℝ)
    (n : ℕ) (g : RngStream) : List TrialRecord :=
  let nA := numAssets rets
  let periods : ℝ := (infer_periods_per_year index : ℚ)
  let mu := mean_returns rets periods
  let M := cov_matrix rets periods
  (List.range n).map (trialRecord g nA mu M rf)

/-- `simulate_portfolios(returns, rf_rate, n_portfolios, random_state)`:
run the `n` trials, then take `df['Sharpe'].idxmax()` (the Sharpe column
is always finite, but empty for `n = 0`, where `idxmax` raises) and
`df['Volatility'].idxmin()` (which fails when every volatility is NaN —
degenerate statistics) for the reference records.  The random stream is
the caller-supplied generator (`np.random.default_rng` is a pure function
of the seed). -/
noncomputable def simulate_portfolios (rets : List (List ℝ)) (index : List ℤ)
    (rf : ℝ) (n : ℕ) (g : RngStream) : Except SimError SimResult :=
  let records := simRecords rets index rf n g
  match argmaxBy (fun r => r.sharpe) records with
  | none => .error .emptyArgmax
  | some mx =>
    match argminStat (fun r => r.vol) records with
    | none => .error .allNanIdxmin
    | some mn => .ok { records := records, max_sharpe := mx, min_vol := mn }

/-! ### HorizonAdjuster (app.py lines 116-125) -/

/-- A simulated results-table row with finite (non-NaN) statistics, as
consumed by the horizon-scaling block: `Return`, `Volatility`, `Sharpe`
and the per-ticker weights. -/
structure PortRecord where
  ret : ℝ
  vol : ℝ
  sharpe : ℝ
  weights : List ℝ

/-- A float value that may be infinite or NaN; only the `Sharpe_h` column
can leave the reals, via the unguarded division. -/
inductive FVal where
  | val (x : ℝ)
  | posInf
  | negInf
  | nan

/-- IEEE-754 division as performed elementwise by pandas: finite quotient
when the denominator is nonzero, otherwise `±inf` by the numerator's sign
and `NaN` for `0/0`. -/
noncomputable def fdiv (a b : ℝ) : FVal :=
  if b ≠ 0 then .val (a / b)
  else if 0 < a then .posInf
  else if a < 0 then .negInf
  else .nan

/-- A horizon-scaled row: `Return_h`, `Volatility_h`, `Sharpe_h` and the
carried-over weights. -/
structure HRec where
  ret_h : ℝ
  vol_h : ℝ
  sharpe_h : FVal
  weights : List ℝ

/-- The horizon-scaling block of `app.py`:
`Return_h = (1 + Return) ** h - 1`,
`Volatility_h = Volatility * h ** 0.5`,
`Sharpe_h = (Return_h - rf_rate * h) / Volatility_h` (no zero-volatility
guard: a plain elementwise float division). -/
noncomputable def scaleRecord (r : PortRecord) (h : ℕ) (rf : ℝ) : HRec :=
  let ret_h := (1 + r.ret) ^ h - 1
  let vol_h := r.vol * Real.sqrt h
  { ret_h := ret_h, vol_h := vol_h,
    sharpe_h := fdiv (ret_h - rf * h) vol_h, weights := r.weights }

/-! ### PortfolioSelector (app.py lines 128-154) -/

/-- A `Sharpe_h` cell as the selector receives it: the unguarded division
of the horizon adjuster produces a finite float (modelled by `ℚ`), `+inf`,
`-inf`, or `NaN`. -/
inductive QVal where
  | val (x : ℚ)
  | posInf
  | negInf
  | nan
  deriving DecidableEq

/-- Strict IEEE `<` between two non-NaN float values
(`-inf < finite < +inf`); any comparison against NaN is false, but the
NaN cases below are never consulted because `idxmax` skips NaN entries. -/
def qlt : QVal → QVal → Bool
  | .negInf, .val _ => true
  | .negInf, .posInf => true
  | .val a, .val b => decide (a < b)
  | .val _, .posInf => true
  | _, _ => false

/-- A horizon-scaled row as seen by the selector: `Return_h` and
`Volatility_h` are always finite floats (modelled by `ℚ`), while
`Sharpe_h` can be infinite or NaN. -/
structure SRecord where
  ret_h : ℚ
  vol_h : ℚ
  sharpe_h : QVal
  weights : List ℚ
  deriving DecidableEq

/-- Running first-occurrence maximum over a possibly-NaN/infinite float
key, skipping NaN entries (`Series.idxmax` keeps `skipna=True`). -/
def argmaxQGo {α : Type} (f : α → QVal) (best : α) : List α → α
  | [] => best
  | x :: xs =>
    match f x with
    | .nan => argmaxQGo f best xs
    | _ => if qlt (f best) (f x) then argmaxQGo f x xs else argmaxQGo f best xs

/-- `Series.idxmax` followed by `df.loc` on a possibly-NaN/infinite float
column: the first element attaining the maximal non-NaN key; `none` when
the column is empty or all-NaN (where the real pandas call fails instead
of returning a row). -/
def argmaxQ {α : Type} (f : α → QVal) : List α → Option α
  | [] => none
  | x :: xs =>
    match f x with
    | .nan => argmaxQ f xs
    | _ => some (argmaxQGo f x xs)

inductive RiskTier where
  | low
  | moderate
  | high
  deriving DecidableEq

inductive Goal where
  | capitalPreservation
  | highRiskHighReturn
  | longTermGrowth
  | balanced
  deriving DecidableEq

/-- Ascending sort of a float column (the order pandas quantile/median
sort by). -/
def sortQ (l : List ℚ) : List ℚ :=
  l.insertionSort (· ≤ ·)

/-- `Series.quantile(q)` with the default linear interpolation: on the
ascending sort `s` of the values, position `pos = q * (n - 1)`, and the
result is `s[i] + (pos - i) * (s[i+1] - s[i])` with `i = ⌊pos⌋`. -/
def quantileLinear (q : ℚ) (l : List ℚ) : ℚ :=
  let s := sortQ l
  let n := s.length
  if n = 0 then 0
  else
    let pos : ℚ := q * ((n : ℚ) - 1)
    let i : ℕ := ⌊pos⌋.toNat
    let a := s.getD i 0
    let b := s.getD (i + 1) a
    a + (pos - i) * (b - a)

/-- `Series.median()`: middle element of the ascending sort, or the mean of
the two middle elements for an even count. -/
def medianQ (l : List ℚ) : ℚ :=
  let s := sortQ l
  let n := s.length
  if n = 0 then 0
  else if n % 2 = 1 then s.getD (n / 2) 0
  else (s.getD (n / 2 - 1) 0 + s.getD (n / 2) 0) / 2

/-- The risk-tolerance filter (app.py lines 128-137): `Low` keeps the rows
with `Volatility_h` at most the 25th percentile of the whole table;
`Moderate` and `High` keep the whole table. -/
def riskFilter (t : RiskTier) (recs : List SRecord) : List SRecord :=
  match t with
  | .low =>
    let thr := quantileLinear (1 / 4) (recs.map fun r => r.vol_h)
    recs.filter fun r => decide (r.vol_h ≤ thr)
  | .moderate => recs
  | .high => recs

/-- The goal selection (app.py lines 139-154), returning the row of the
table at the selected label: `Capital Preservation` takes
`Volatility_h.idxmin()`, `High Risk-High Return` takes `Return_h.idxmax()`,
`Long-Term Growth` takes `Sharpe_h.idxmax()`, `Balanced` takes the row
whose `Volatility_h` is closest to the median `Volatility_h`. -/
def selectGoal (gl : Goal) (recs : List SRecord) : Option SRecord :=
  match gl with
  | .capitalPreservation => argminBy (fun r => r.vol_h) recs
  | .highRiskHighReturn => argmaxBy (fun r => r.ret_h) recs
  | .longTermGrowth => argmaxQ (fun r => r.sharpe_h) recs
  | .balanced =>
    let m := medianQ (recs.map fun r => r.vol_h)
    argminBy (fun r => |r.vol_h - m|) recs

/-! ### Helper lemmas -/

theorem argminGo_spec {α β : Type} [LinearOrder β] (f : α → β) (l : List α) (b : α) :
    (argminGo f b l = b ∨ argminGo f b l ∈ l) ∧
      f (argminGo f b l) ≤ f b ∧ ∀ x ∈ l, f (argminGo f b l) ≤ f x := by
  induction l generalizing b with
  | nil => simp [argminGo]
  | cons x xs ih =>
    simp only [argminGo]
    by_cases h : f x < f b
    · rw [if_pos h]
      obtain ⟨hmem, hle, hall⟩ := ih x
      refine ⟨?_, le_trans hle h.le, ?_⟩
      · rcases hmem with h1 | h1
        · exact Or.inr (by simp [h1])
        · exact Or.inr (List.mem_cons_of_mem _ h1)
      · intro y hy
        rcases List.mem_cons.mp hy with rfl | hy
        · exact hle
        · exact hall y hy
    · rw [if_neg h]
      obtain ⟨hmem, hle, hall⟩ := ih b
      refine ⟨?_, hle, ?_⟩
      · rcases hmem with h1 | h1
        · exact Or.inl h1
        · exact Or.inr (List.mem_cons_of_mem _ h1)
      · intro y hy
        rcases List.mem_cons.mp hy with rfl | hy
        · exact le_trans hle (not_lt.mp h)
        · exact hall y hy

theorem argminBy_spec {α β : Type} [LinearOrder β] (f : α → β) (l : List α)
    (h : l ≠ []) : ∃ r, argminBy f l = some r ∧ r ∈ l ∧ ∀ x ∈ l, f r ≤ f x := by
  match l with
  | [] => exact absurd rfl h
  | x :: xs =>
    obtain ⟨hmem, hle, hall⟩ := argminGo_spec f xs x
    refine ⟨argminGo f x xs, rfl, ?_, ?_⟩
    · rcases hmem with h1 | h1
      · simp [h1]
      · exact List.mem_cons_of_mem _ h1
    · intro y hy
      rcases List.mem_cons.mp hy with rfl | hy
      · exact hle
      · exact hall y hy

theorem argmaxGo_spec {α β : Type} [LinearOrder β] (f : α → β) (l : List α) (b : α) :
    (argmaxGo f b l = b ∨ argmaxGo f b l ∈ l) ∧
      f b ≤ f (argmaxGo f b l) ∧ ∀ x ∈ l, f x ≤ f (argmaxGo f b l) := by
  induction l generalizing b with
  | nil => simp [argmaxGo]
  | cons x xs ih =>
    simp only [argmaxGo]
    by_cases h : f b < f x
    · rw [if_pos h]
      obtain ⟨hmem, hle, hall⟩ := ih x
      refine ⟨?_, le_trans h.le hle, ?_⟩
      · rcases hmem with h1 | h1
        · exact Or.inr (by simp [h1])
        · exact Or.inr (List.mem_cons_of_mem _ h1)
      · intro y hy
        rcases List.mem_cons.mp hy with rfl | hy
        · exact hle
        · exact hall y hy
    · rw [if_neg h]
      obtain ⟨hmem, hle, hall⟩ := ih b
      refine ⟨?_, hle, ?_⟩
      · rcases hmem with h1 | h1
        · exact Or.inl h1
        · exact Or.inr (List.mem_cons_of_mem _ h1)
      · intro y hy
        rcases List.mem_cons.mp hy with rfl | hy
        · exact le_trans (not_lt.mp h) hle
        · exact hall y hy

theorem argmaxBy_spec {α β : Type} [LinearOrder β] (f : α → β) (l : List α)
    (h : l ≠ []) : ∃ r, argmaxBy f l = some r ∧ r ∈ l ∧ ∀ x ∈ l, f x ≤ f r := by
  match l with
  | [] => exact absurd rfl h
  | x :: xs =>
    obtain ⟨hmem, hle, hall⟩ := argmaxGo_spec f xs x
    refine ⟨argmaxGo f x xs, rfl, ?_, ?_⟩
    · rcases hmem with h1 | h1
      · simp [h1]
      · exact List.mem_cons_of_mem _ h1
    · intro y hy
      rcases List.mem_cons.mp hy with rfl | hy
      · exact hle
      · exact hall y hy

theorem RStat.nan_add (z : RStat) : RStat.add .nan z = .nan := by
  cases z <;> rfl

theorem RStat.add_nan (z : RStat) : RStat.add z .nan = .nan := by
  cases z <;> rfl

theorem foldr_add_eq_nan (l : List RStat) (h : RStat.nan ∈ l) :
    l.foldr RStat.add (.val 0) = .nan := by
  induction l with
  | nil => simp at h
  | cons x xs ih =>
    simp only [List.foldr_cons]
    rcases List.mem_cons.mp h with rfl | hx
    · exact RStat.nan_add _
    · rw [ih hx]
      exact RStat.add_nan _

theorem foldr_add_isVal (l : List RStat) (h : ∀ x ∈ l, ∃ v, x = RStat.val v) :
    ∃ v, l.foldr RStat.add (.val 0) = .val v := by
  induction l with
  | nil => exact ⟨0, rfl⟩
  | cons x xs ih =>
    obtain ⟨a, ha⟩ := h x (by simp)
    obtain ⟨b, hb⟩ := ih fun y hy => h y (List.mem_cons_of_mem _ hy)
    exact ⟨a + b, by simp only [List.foldr_cons, ha, hb]; rfl⟩

theorem dotS_eq_nan (xs : List ℝ) (ys : List RStat)
    (hx : xs ≠ []) (hy0 : ys ≠ []) (hy : ∀ y ∈ ys, y = RStat.nan) :
    dotS xs ys = .nan := by
  obtain ⟨x, xs', rfl⟩ := List.exists_cons_of_ne_nil hx
  obtain ⟨y, ys', rfl⟩ := List.exists_cons_of_ne_nil hy0
  have h1 : y = RStat.nan := hy y (by simp)
  subst h1
  apply foldr_add_eq_nan
  simp [List.zip_cons_cons, RStat.scale]

theorem dotS_isVal (xs : List ℝ) (ys : List RStat)
    (hy : ∀ y ∈ ys, ∃ v, y = RStat.val v) :
    ∃ v, dotS xs ys = .val v := by
  apply foldr_add_isVal
  intro z hz
  obtain ⟨⟨a, b⟩, hp, rfl⟩ := List.mem_map.mp hz
  obtain ⟨v, hv⟩ := hy b (List.of_mem_zip hp).2
  exact ⟨v * a, by rw [hv]; rfl⟩

theorem argminStat_eq_none {α : Type} (f : α → RStat) (l : List α)
    (h : ∀ x ∈ l, f x = RStat.nan) : argminStat f l = none := by
  induction l with
  | nil => rfl
  | cons x xs ih =>
    have hx := h x (by simp)
    simp only [argminStat, hx]
    exact ih fun y hy => h y (List.mem_cons_of_mem _ hy)

theorem argminStat_isSome {α : Type} (f : α → RStat) (l : List α) (x : α)
    (v : ℝ) (hx : x ∈ l) (hv : f x = RStat.val v) :
    ∃ r, argminStat f l = some r := by
  induction l with
  | nil => simp at hx
  | cons y ys ih =>
    cases hfy : f y with
    | nan =>
      have hmem : x ∈ ys := by
        rcases List.mem_cons.mp hx with rfl | h1
        · rw [hv] at hfy
          exact absurd hfy (by intro hc; cases hc)
        · exact h1
      obtain ⟨r, hr⟩ := ih hmem
      refine ⟨r, ?_⟩
      simp only [argminStat, hfy]
      exact hr
    | val w =>
      refine ⟨argminStatGo f y w ys, ?_⟩
      simp only [argminStat, hfy]

theorem argmaxQGo_mem {α : Type} (f : α → QVal) (l : List α) (b : α) :
    argmaxQGo f b l = b ∨ argmaxQGo f b l ∈ l := by
  induction l generalizing b with
  | nil => simp [argmaxQGo]
  | cons x xs ih =>
    have hstep : argmaxQGo f b (x :: xs) = argmaxQGo f b xs ∨
        argmaxQGo f b (x :: xs) = argmaxQGo f x xs := by
      cases hfx : f x with
      | nan =>
        simp only [argmaxQGo, hfx]
        exact Or.inl trivial
      | val w =>
        simp only [argmaxQGo, hfx]
        by_cases hq : qlt (f b) (QVal.val w) = true
        · rw [if_pos hq]
          exact Or.inr rfl
        · rw [if_neg hq]
          exact Or.inl rfl
      | posInf =>
        simp only [argmaxQGo, hfx]
        by_cases hq : qlt (f b) QVal.posInf = true
        · rw [if_pos hq]
          exact Or.inr rfl
        · rw [if_neg hq]
          exact Or.inl rfl
      | negInf =>
        simp only [argmaxQGo, hfx]
        by_cases hq : qlt (f b) QVal.negInf = true
        · rw [if_pos hq]
          exact Or.inr rfl
        · rw [if_neg hq]
          exact Or.inl rfl
    rcases hstep with h | h
    · rw [h]
      rcases ih b with h1 | h1
      · exact Or.inl h1
      · exact Or.inr (List.mem_cons_of_mem _ h1)
    · rw [h]
      rcases ih x with h1 | h1
      · exact Or.inr (by simp [h1])
      · exact Or.inr (List.mem_cons_of_mem _ h1)

theorem argmaxQ_spec {α : Type} (f : α → QVal) (l : List α) (x : α)
    (hx : x ∈ l) (hnn : f x ≠ QVal.nan) :
    ∃ r, argmaxQ f l = some r ∧ r ∈ l := by
  induction l with
  | nil => simp at hx
  | cons y ys ih =>
    cases hfy : f y with
    | nan =>
      have hmem : x ∈ ys := by
        rcases List.mem_cons.mp hx with rfl | h1
        · exact absurd hfy hnn
        · exact h1
      obtain ⟨r, hr, hrm⟩ := ih hmem
      refine ⟨r, ?_, List.mem_cons_of_mem _ hrm⟩
      simp only [argmaxQ, hfy]
      exact hr
    | val w =>
      refine ⟨argmaxQGo f y ys, by simp only [argmaxQ, hfy], ?_⟩
      rcases argmaxQGo_mem f ys y with h1 | h1
      · rw [h1]
        simp
      · exact List.mem_cons_of_mem _ h1
    | posInf =>
      refine ⟨argmaxQGo f y ys, by simp only [argmaxQ, hfy], ?_⟩
      rcases argmaxQGo_mem f ys y with h1 | h1
      · rw [h1]
        simp
      · exact List.mem_cons_of_mem _ h1
    | negInf =>
      refine ⟨argmaxQGo f y ys, by simp only [argmaxQ, hfy], ?_⟩
      rcases argmaxQGo_mem f ys y with h1 | h1
      · rw [h1]
        simp
      · exact List.mem_cons_of_mem _ h1

theorem dirichletDraw_length (g : RngStream) (nA i : ℕ) :
    (dirichletDraw g nA i).length = nA := by
  simp [dirichletDraw]

theorem trialRecord_vol_nan (g : RngStream) (rets : List (List ℝ))
    (periods rf : ℝ) (i : ℕ) (h2 : rets.length < 2) (hA : 1 ≤ numAssets rets) :
    (trialRecord g (numAssets rets) (mean_returns rets periods)
      (cov_matrix rets periods) rf i).vol = RStat.nan := by
  have hw : dirichletDraw g (numAssets rets) i ≠ [] := by
    intro hc
    have hl := dirichletDraw_length g (numAssets rets) i
    rw [hc] at hl
    simp at hl
    omega
  have hMne : cov_matrix rets periods ≠ [] := by
    intro hc
    have hl : (cov_matrix rets periods).length = numAssets rets := by
      simp [cov_matrix]
    rw [hc] at hl
    simp at hl
    omega
  have hrow : ∀ row ∈ cov_matrix rets periods,
      row ≠ [] ∧ ∀ y ∈ row, y = RStat.nan := by
    intro row hmem
    simp only [cov_matrix, List.mem_map] at hmem
    obtain ⟨j, _, rfl⟩ := hmem
    constructor
    · intro hc
      have hl := congrArg List.length hc
      simp at hl
      omega
    · intro y hy
      simp only [List.mem_map] at hy
      obtain ⟨k, _, rfl⟩ := hy
      simp only [covEntry]
      rw [if_pos h2]
      rfl
  have hinner : ∀ z ∈ (cov_matrix rets periods).map
      (fun row => dotS (dirichletDraw g (numAssets rets) i) row),
      z = RStat.nan := by
    intro z hz
    simp only [List.mem_map] at hz
    obtain ⟨row, hrm, rfl⟩ := hz
    obtain ⟨hne1, hnan1⟩ := hrow row hrm
    exact dotS_eq_nan _ _ hw hne1 hnan1
  have houter : dotS (dirichletDraw g (numAssets rets) i)
      ((cov_matrix rets periods).map
        fun row => dotS (dirichletDraw g (numAssets rets) i) row) = RStat.nan := by
    refine dotS_eq_nan _ _ hw ?_ hinner
    intro hc
    rw [List.map_eq_nil_iff] at hc
    exact hMne hc
  show RStat.sqrtS (dotS (dirichletDraw g (numAssets rets) i)
      ((cov_matrix rets periods).map
        fun row => dotS (dirichletDraw g (numAssets rets) i) row)) = RStat.nan
  rw [houter]
  rfl

theorem trialRecord_vol_isVal (g : RngStream) (rets : List (List ℝ))
    (periods rf : ℝ) (i : ℕ) (h2 : 2 ≤ rets.length) :
    ∃ v, (trialRecord g (numAssets rets) (mean_returns rets periods)
      (cov_matrix rets periods) rf i).vol = RStat.val v := by
  have hrow : ∀ z ∈ (cov_matrix rets periods).map
      (fun row => dotS (dirichletDraw g (numAssets rets) i) row),
      ∃ v, z = RStat.val v := by
    intro z hz
    simp only [List.mem_map] at hz
    obtain ⟨row, hrm, rfl⟩ := hz
    apply dotS_isVal
    intro y hy
    simp only [cov_matrix, List.mem_map] at hrm
    obtain ⟨j, _, rfl⟩ := hrm
    simp only [List.mem_map] at hy
    obtain ⟨k, _, rfl⟩ := hy
    simp only [covEntry]
    rw [if_neg (by omega)]
    exact ⟨_, rfl⟩
  obtain ⟨v, hv⟩ := dotS_isVal (dirichletDraw g (numAssets rets) i) _ hrow
  refine ⟨Real.sqrt v, ?_⟩
  show RStat.sqrtS (dotS (dirichletDraw g (numAssets rets) i)
      ((cov_matrix rets periods).map
        fun row => dotS (dirichletDraw g (numAssets rets) i) row)) = _
  rw [hv]
  rfl

theorem sortQ_perm (l : List ℚ) : List.Perm (sortQ l) l :=
  List.perm_insertionSort _ l

theorem sortQ_sorted (l : List ℚ) : (sortQ l).Sorted (· ≤ ·) :=
  List.sorted_insertionSort _ l

/-- The linear-interpolation quantile of a non-empty list is at least some
element of the list (in fact at least its minimum). -/
theorem exists_le_quantileLinear (l : List ℚ) (hl : l ≠ []) :
    ∃ x ∈ l, x ≤ quantileLinear (1 / 4) l := by
  have hperm := sortQ_perm l
  have hsort := sortQ_sorted l
  set s := sortQ l with hs
  have hn : s.length ≠ 0 := by
    rw [hperm.length_eq]
    exact fun hc => hl (List.eq_nil_of_length_eq_zero hc)
  have h0 : 0 < s.length := Nat.pos_of_ne_zero hn
  refine ⟨s.getD 0 0, ?_, ?_⟩
  · have hmem : s.getD 0 0 ∈ s := by
      rw [List.getD_eq_getElem s 0 h0]
      exact List.getElem_mem h0
    exact hperm.mem_iff.mp hmem
  · simp only [quantileLinear, ← hs]
    rw [if_neg hn]
    set pos : ℚ := 1 / 4 * ((s.length : ℚ) - 1) with hpos
    have hn1 : (1 : ℚ) ≤ (s.length : ℚ) := by exact_mod_cast h0
    have hpos0 : 0 ≤ pos := by
      rw [hpos]
      have : (0 : ℚ) ≤ (s.length : ℚ) - 1 := by linarith
      exact mul_nonneg (by norm_num) this
    have hfl0 : (0 : ℤ) ≤ ⌊pos⌋ := Int.floor_nonneg.mpr hpos0
    set i : ℕ := ⌊pos⌋.toNat with hi
    have hic : (i : ℚ) ≤ pos := by
      have h2 : ((⌊pos⌋.toNat : ℤ) : ℚ) ≤ pos := by
        rw [Int.toNat_of_nonneg hfl0]
        exact_mod_cast Int.floor_le pos
      rw [hi]
      exact_mod_cast h2
    have hpos_le : pos ≤ (s.length : ℚ) - 1 := by
      rw [hpos]
      have h1 : (0 : ℚ) ≤ (s.length : ℚ) - 1 := by linarith
      nlinarith
    have hin : i < s.length := by
      have h2 : (i : ℚ) < (s.length : ℚ) := by linarith
      exact_mod_cast h2
    have hhead : s.getD 0 0 ≤ s.getD i 0 := by
      rw [List.getD_eq_getElem s 0 h0, List.getD_eq_getElem s 0 hin]
      have := hsort.rel_get_of_le (a := ⟨0, h0⟩) (b := ⟨i, hin⟩)
        (Fin.mk_le_mk.mpr (Nat.zero_le _))
      simpa [List.get_eq_getElem] using this
    have hb : s.getD i 0 ≤ s.getD (i + 1) (s.getD i 0) := by
      by_cases hbi : i + 1 < s.length
      · rw [List.getD_eq_getElem s (s.getD i 0) hbi, List.getD_eq_getElem s 0 hin]
        have := hsort.rel_get_of_le (a := ⟨i, hin⟩) (b := ⟨i + 1, hbi⟩)
          (Fin.mk_le_mk.mpr (Nat.le_succ _))
        simpa [List.get_eq_getElem] using this
      · rw [List.getD_eq_default s (s.getD i 0) (by omega)]
    have hfrac : 0 ≤ pos - (i : ℚ) := by linarith
    have hba : 0 ≤ s.getD (i + 1) (s.getD i 0) - s.getD i 0 := by linarith
    nlinarith

theorem sum_map_div (l : List ℝ) (s : ℝ) :
    (l.map fun x => x / s).sum = l.sum / s := by
  induction l with
  | nil => simp
  | cons x xs ih => simp [ih, add_div]

/-- Every component of a Dirichlet draw is positive and the components sum
to exactly 1 (for at least one asset). -/
theorem dirichletDraw_simplex (g : RngStream) (nA : ℕ) (hA : 1 ≤ nA) (i : ℕ) :
    (∀ x ∈ dirichletDraw g nA i, 0 ≤ x) ∧ (dirichletDraw g nA i).sum = 1 := by
  set raw : List ℝ := (List.range nA).map fun j => g.draw (i * nA + j) with hraw
  have hrawpos : ∀ x ∈ raw, 0 < x := by
    intro x hx
    rw [hraw] at hx
    obtain ⟨j, _, rfl⟩ := List.mem_map.mp hx
    exact g.draw_pos _
  have hrawne : raw ≠ [] := by
    rw [hraw]
    intro hc
    have := congrArg List.length hc
    simp at this
    omega
  have hsum : 0 < raw.sum := List.sum_pos raw hrawpos hrawne
  constructor
  · intro x hx
    simp only [dirichletDraw, ← hraw] at hx
    obtain ⟨y, hy, rfl⟩ := List.mem_map.mp hx
    exact le_of_lt (div_pos (hrawpos y hy) hsum)
  · simp only [dirichletDraw, ← hraw]
    rw [sum_map_div]
    exact div_self (ne_of_gt hsum)

theorem diffs_length (idx : List ℤ) : (diffs idx).length = idx.length - 1 := by
  simp only [diffs, List.length_map, List.length_zip, List.length_drop]
  omega

theorem all_replicate_beq (k : ℕ) (d : ℤ) :
    (List.replicate k d).all (· == d) = true := by
  simp [List.all_eq_true, List.mem_replicate]

/-! ### Claim theorems -/

/-- C3: for every weight vector `w`, mean-return vector `mu`, covariance
matrix `M` and risk-free rate `rf`, the scorer computes
`return = dot(w, mu)`, `volatility = sqrt(w' · M · w)`, and
`sharpe = (return - rf) / volatility` when `volatility > 0`, and `sharpe`
is exactly `0.0` whenever `volatility = 0` (the volatility is never
negative, so the guard covers every case and the division by zero never
happens). -/
theorem c3_scorer_formulas (w mu : List ℝ) (M : List (List ℝ)) (rf : ℝ) :
    (score w mu M rf).ret = dotR w mu ∧
    (score w mu M rf).vol = Real.sqrt (quadForm w M) ∧
    0 ≤ (score w mu M rf).vol ∧
    (0 < (score w mu M rf).vol →
      (score w mu M rf).sharpe = ((score w mu M rf).ret - rf) / (score w mu M rf).vol) ∧
    ((score w mu M rf).vol = 0 → (score w mu M rf).sharpe = 0) := by
  refine ⟨rfl, rfl, Real.sqrt_nonneg _, ?_, ?_⟩
  · intro h
    simp only [score] at h ⊢
    rw [if_pos h]
  · intro h
    simp only [score] at h ⊢
    rw [if_neg (by rw [h]; exact lt_irrefl 0)]

/-- Witness for C3 at the degenerate zero-variance portfolio
`w = [1]`, `mu = [0]`, `M = [[0]]`, `rf = 0`: the volatility is `0` and
the Sharpe ratio is exactly `0`. -/
theorem c3_scorer_formulas_witness :
    (score [(1 : ℝ)] [0] [[0]] 0).vol = 0 ∧ (score [(1 : ℝ)] [0] [[0]] 0).sharpe = 0 := by
  have hv : (score [(1 : ℝ)] [0] [[0]] 0).vol = 0 := by
    simp [score, quadForm, dotR]
  exact ⟨hv, (c3_scorer_formulas [(1 : ℝ)] [0] [[0]] 0).2.2.2.2 hv⟩

/-- C4 (amended): for every simulated record and every horizon `h`, the
horizon scaling computes `return_h = (1 + return)^h - 1` and
`volatility_h = volatility * sqrt(h)`, and `sharpe_h` is the plain
elementwise float division `(return_h - rf*h) / volatility_h`: when
`volatility_h` is nonzero the quotient is finite and equals that formula,
but when `volatility_h = 0` the result is `+inf`, `-inf` or `NaN` — never
`0.0`, because the code has no zero-volatility guard. -/
theorem c4_horizon_scaling (r : PortRecord) (h : ℕ) (rf : ℝ) :
    (scaleRecord r h rf).ret_h = (1 + r.ret) ^ h - 1 ∧
    (scaleRecord r h rf).vol_h = r.vol * Real.sqrt h ∧
    ((scaleRecord r h rf).vol_h ≠ 0 →
      (scaleRecord r h rf).sharpe_h =
        FVal.val (((scaleRecord r h rf).ret_h - rf * h) / (scaleRecord r h rf).vol_h)) ∧
    ((scaleRecord r h rf).vol_h = 0 →
      (scaleRecord r h rf).sharpe_h = FVal.posInf ∨
      (scaleRecord r h rf).sharpe_h = FVal.negInf ∨
      (scaleRecord r h rf).sharpe_h = FVal.nan) := by
  refine ⟨rfl, rfl, ?_, ?_⟩
  · intro h0
    simp only [scaleRecord] at h0 ⊢
    rw [fdiv, if_pos h0]
  · intro h0
    simp only [scaleRecord] at h0 ⊢
    rw [fdiv, if_neg (by simp [h0])]
    rcases lt_trichotomy ((1 + r.ret) ^ h - 1 - rf * h) 0 with hs | hs | hs
    · rw [if_neg (by exact not_lt.mpr hs.le), if_pos hs]
      exact Or.inr (Or.inl rfl)
    · rw [if_neg (by simp [hs]), if_neg (by simp [hs])]
      exact Or.inr (Or.inr rfl)
    · rw [if_pos hs]
      exact Or.inl rfl

/-- Counterexample to C4 as stated: the record with `return = 1` and
`volatility = 0`, scaled to `h = 1` with `rf = 0`, has `volatility_h = 0`
but `sharpe_h = +inf`, not `0.0` — `app.py` divides without the
zero-volatility guard the claim asserts. -/
theorem c4_counterexample :
    (scaleRecord ⟨1, 0, 0, []⟩ 1 0).vol_h = 0 ∧
    (scaleRecord ⟨1, 0, 0, []⟩ 1 0).sharpe_h = FVal.posInf ∧
    (scaleRecord ⟨1, 0, 0, []⟩ 1 0).sharpe_h ≠ FVal.val 0 := by
  refine ⟨by simp [scaleRecord], ?_, ?_⟩
  · simp only [scaleRecord]
    rw [fdiv, if_neg (by simp), if_pos (by norm_num)]
  · simp only [scaleRecord]
    rw [fdiv, if_neg (by simp), if_pos (by norm_num)]
    exact fun hcontra => FVal.noConfusion hcontra

/-- Witness for C4 at the same concrete zero-volatility record: the
amended theorem yields that `sharpe_h` is one of `+inf`, `-inf`, `NaN`. -/
theorem c4_horizon_scaling_witness :
    (scaleRecord ⟨1, 0, 0, []⟩ 1 0).sharpe_h = FVal.posInf ∨
    (scaleRecord ⟨1, 0, 0, []⟩ 1 0).sharpe_h = FVal.negInf ∨
    (scaleRecord ⟨1, 0, 0, []⟩ 1 0).sharpe_h = FVal.nan :=
  (c4_horizon_scaling ⟨1, 0, 0, []⟩ 1 0).2.2.2 (by simp [scaleRecord])

/-- C5: for every non-empty candidate set, goal `Capital Preservation`
returns a candidate whose `volatility_h` is the minimum over the candidate
set (the first such row, by `idxmin`). -/
theorem c5_capital_preservation (recs : List SRecord) (h : recs ≠ []) :
    ∃ r, selectGoal .capitalPreservation recs = some r ∧ r ∈ recs ∧
      ∀ s ∈ recs, r.vol_h ≤ s.vol_h := by
  simpa [selectGoal] using argminBy_spec (fun r : SRecord => r.vol_h) recs h

/-- Witness for C5 on a hand-built table of 5 records with known minimum
volatility. -/
theorem c5_capital_preservation_witness :
    ∃ r, selectGoal .capitalPreservation
        [⟨1, 5, .val 0, []⟩, ⟨2, 3, .val 0, []⟩, ⟨3, 1, .val 0, []⟩,
          ⟨4, 4, .val 0, []⟩, ⟨5, 2, .val 0, []⟩] =
        some r ∧
      r ∈ [(⟨1, 5, .val 0, []⟩ : SRecord), ⟨2, 3, .val 0, []⟩, ⟨3, 1, .val 0, []⟩,
        ⟨4, 4, .val 0, []⟩, ⟨5, 2, .val 0, []⟩] ∧
      ∀ s ∈ [(⟨1, 5, .val 0, []⟩ : SRecord), ⟨2, 3, .val 0, []⟩, ⟨3, 1, .val 0, []⟩,
        ⟨4, 4, .val 0, []⟩, ⟨5, 2, .val 0, []⟩], r.vol_h ≤ s.vol_h :=
  c5_capital_preservation _ (by simp)

/-- C1: for every `ReturnMatrix`, risk-free rate and `n ≥ 1`, two calls to
`simulate_portfolios` with identical inputs and the same fixed seed produce
bit-identical results tables (same rows in the same trial order) and
identical max-Sharpe and min-volatility reference records.
`np.random.default_rng(seed)` is a pure function of the seed, so two calls
with the same integer seed consume identical random streams; the
hypothesis `g₁ = g₂` expresses that. -/
theorem c1_reproducibility (rets : List (List ℝ)) (index : List ℤ) (rf : ℝ)
    (n : ℕ) (g₁ g₂ : RngStream) (hn : 1 ≤ n) (hg : g₁ = g₂) :
    simulate_portfolios rets index rf n g₁ = simulate_portfolios rets index rf n g₂ ∧
    simRecords rets index rf n g₁ = simRecords rets index rf n g₂ := by
  subst hg
  exact ⟨rfl, rfl⟩

/-- Witness for C1 at a concrete two-asset return matrix, `n = 1`, and the
unit stream. -/
theorem c1_reproducibility_witness :
    simulate_portfolios [[(1 : ℝ), 2], [2, 1]] [0, 1] 0 1 unitStream =
      simulate_portfolios [[(1 : ℝ), 2], [2, 1]] [0, 1] 0 1 unitStream ∧
    simRecords [[(1 : ℝ), 2], [2, 1]] [0, 1] 0 1 unitStream =
      simRecords [[(1 : ℝ), 2], [2, 1]] [0, 1] 0 1 unitStream :=
  c1_reproducibility [[(1 : ℝ), 2], [2, 1]] [0, 1] 0 1 unitStream unitStream
    (by decide) rfl

/-- C2: every weight vector drawn by the sampler (one Dirichlet(1,...,1)
draw per trial) has every component ≥ 0 and components summing to 1 — in
the real-arithmetic model exactly, hence within the claimed `1e-9`
tolerance — and consequently every row of the simulation results table
stores such a vector in its weight columns. -/
theorem c2_dirichlet_weights (g : RngStream) (nA : ℕ) (hA : 1 ≤ nA) :
    (∀ i, (∀ x ∈ dirichletDraw g nA i, 0 ≤ x) ∧ (dirichletDraw g nA i).sum = 1 ∧
      |(dirichletDraw g nA i).sum - 1| ≤ 1 / 1000000000) ∧
    (∀ rets index rf n, numAssets rets = nA →
      ∀ r ∈ simRecords rets index rf n g,
        (∀ x ∈ r.weights, 0 ≤ x) ∧ r.weights.sum = 1) := by
  constructor
  · intro i
    obtain ⟨hpos, hsum⟩ := dirichletDraw_simplex g nA hA i
    exact ⟨hpos, hsum, by rw [hsum]; norm_num⟩
  · intro rets index rf n hnum r hr
    simp only [simRecords] at hr
    obtain ⟨i, _, rfl⟩ := List.mem_map.mp hr
    have hw : (trialRecord g (numAssets rets)
        (mean_returns rets ((infer_periods_per_year index : ℚ) : ℝ))
        (cov_matrix rets ((infer_periods_per_year index : ℚ) : ℝ)) rf i).weights =
        dirichletDraw g (numAssets rets) i := rfl
    rw [hw, hnum]
    exact dirichletDraw_simplex g nA hA i

/-- Witness for C2: the unit stream with two assets, trial 0. -/
theorem c2_dirichlet_weights_witness :
    (∀ x ∈ dirichletDraw unitStream 2 0, 0 ≤ x) ∧
    (dirichletDraw unitStream 2 0).sum = 1 :=
  ⟨((c2_dirichlet_weights unitStream 2 (by decide)).1 0).1,
   ((c2_dirichlet_weights unitStream 2 (by decide)).1 0).2.1⟩

/-- C6: risk tier `Low` yields as candidate set exactly the records whose
`volatility_h` is ≤ the 25th percentile (pandas linear-interpolation
definition) of `volatility_h` over all records, while `Moderate` and
`High` yield the full record set unchanged. -/
theorem c6_risk_filter (recs : List SRecord) (r : SRecord) :
    (r ∈ riskFilter .low recs ↔
      r ∈ recs ∧ r.vol_h ≤ quantileLinear (1 / 4) (recs.map fun s => s.vol_h)) ∧
    riskFilter .moderate recs = recs ∧
    riskFilter .high recs = recs := by
  refine ⟨?_, rfl, rfl⟩
  simp [riskFilter, List.mem_filter]

/-- Witness for C6 on a concrete one-record table. -/
theorem c6_risk_filter_witness :
    ((⟨0, 1, .val 0, []⟩ : SRecord) ∈ riskFilter .low [⟨0, 1, .val 0, []⟩] ↔
      (⟨0, 1, .val 0, []⟩ : SRecord) ∈ [(⟨0, 1, .val 0, []⟩ : SRecord)] ∧
      (⟨0, 1, .val 0, []⟩ : SRecord).vol_h ≤
        quantileLinear (1 / 4) ([(⟨0, 1, .val 0, []⟩ : SRecord)].map fun s => s.vol_h)) ∧
    riskFilter .moderate [(⟨0, 1, .val 0, []⟩ : SRecord)] = [⟨0, 1, .val 0, []⟩] ∧
    riskFilter .high [(⟨0, 1, .val 0, []⟩ : SRecord)] = [⟨0, 1, .val 0, []⟩] :=
  c6_risk_filter [⟨0, 1, .val 0, []⟩] ⟨0, 1, .val 0, []⟩

theorem compute_returns_cons (p q : List ℚ) (ps : List (List ℚ)) :
    compute_returns (p :: q :: ps) = pctRow p q :: compute_returns (q :: ps) := rfl

theorem compute_returns_getD (prices : List (List ℚ)) (i : ℕ)
    (hi : i + 1 < prices.length) :
    (compute_returns prices).getD i [] =
      pctRow (prices.getD i []) (prices.getD (i + 1) []) := by
  induction prices generalizing i with
  | nil => simp at hi
  | cons p ps ih =>
    cases ps with
    | nil => simp at hi
    | cons q qs =>
      cases i with
      | zero => simp [compute_returns_cons]
      | succ j =>
        have hj : j + 1 < (q :: qs).length := by
          simpa using Nat.lt_of_succ_lt_succ hi
        rw [compute_returns_cons]
        simp only [List.getD_cons_succ]
        exact ih j hj

/-- C7 (amended): `compute_returns` never fails.  For fewer than 2 price
rows `pct_change().dropna()` yields an empty matrix, not an
`InsufficientDataError`; for ≥ 2 rows (with no missing cells and nonzero
prices, so that no float `inf`/`NaN` cell arises) it returns the
period-over-period percentage-change matrix with one fewer row. -/
theorem c7_compute_returns (prices : List (List ℚ))
    (hz : ∀ row ∈ prices, ∀ x ∈ row, x ≠ 0) :
    (prices.length < 2 → compute_returns prices = []) ∧
    (2 ≤ prices.length →
      (compute_returns prices).length = prices.length - 1 ∧
      ∀ i, i + 1 < prices.length →
        (compute_returns prices).getD i [] =
          pctRow (prices.getD i []) (prices.getD (i + 1) [])) := by
  constructor
  · intro h2
    cases prices with
    | nil => rfl
    | cons p ps =>
      cases ps with
      | nil => rfl
      | cons q qs =>
        simp [List.length_cons] at h2
        omega
  · intro _
    refine ⟨?_, fun i hi => compute_returns_getD prices i hi⟩
    simp only [compute_returns, List.length_map, List.length_zip, List.length_drop]
    omega

/-- Counterexample to C7 as stated: on the single-row price matrix
`[[1, 2]]` the source `compute_returns` returns the empty matrix — a
normal value, not the `InsufficientDataError` failure the claim (and the
spec-modelled `computeReturnsSpec`) demand. -/
theorem c7_counterexample :
    compute_returns [[(1 : ℚ), 2]] = [] ∧
    computeReturnsSpec [[(1 : ℚ), 2]] = Except.error SpecError.insufficientData :=
  ⟨rfl, rfl⟩

/-- Witness for C7 on a concrete 2-row, 2-asset price matrix. -/
theorem c7_compute_returns_witness :
    (compute_returns [[(1 : ℚ), 2], [2, 4]]).length =
      [[(1 : ℚ), 2], [2, 4]].length - 1 :=
  ((c7_compute_returns [[(1 : ℚ), 2], [2, 4]] (by decide)).2 (by decide)).1

/-- C8 (amended): `simulate_portfolios` performs no parameter validation.
For `n = 0` it fails through the unguarded `idxmax` over the empty results
table; for `n ≥ 1` on a returns frame with fewer than 2 rows (and at least
one asset) the `ddof = 1` covariance is all-NaN, so every `Volatility` is
NaN and the `idxmin`/`.loc` step fails — both are unhandled pandas errors,
never `InvalidParameterError`; and for `n ≥ 1` with at least 2 return rows
it performs the `n`-trial simulation and succeeds, even when the number of
assets is fewer than 2. -/
theorem c8_simulate_no_validation (rets : List (List ℝ)) (index : List ℤ)
    (rf : ℝ) (n : ℕ) (g : RngStream) :
    (n = 0 → simulate_portfolios rets index rf n g = .error .emptyArgmax) ∧
    (1 ≤ n → rets.length < 2 → 1 ≤ numAssets rets →
      simulate_portfolios rets index rf n g = .error .allNanIdxmin) ∧
    (1 ≤ n → 2 ≤ rets.length →
      ∃ res, simulate_portfolios rets index rf n g = .ok res ∧
        res.records = simRecords rets index rf n g ∧ res.records.length = n) := by
  have hlen : (simRecords rets index rf n g).length = n := by
    simp [simRecords]
  refine ⟨?_, ?_, ?_⟩
  · rintro rfl
    rfl
  · intro hn h2 hA
    have hne : simRecords rets index rf n g ≠ [] := by
      intro hc
      rw [hc] at hlen
      simp at hlen
      omega
    obtain ⟨a, t, hat⟩ := List.exists_cons_of_ne_nil hne
    have hmax : argmaxBy (fun r : TrialRecord => r.sharpe)
        (simRecords rets index rf n g) =
        some (argmaxGo (fun r : TrialRecord => r.sharpe) a t) := by
      rw [hat]
      rfl
    have hvol : ∀ r ∈ simRecords rets index rf n g, r.vol = RStat.nan := by
      intro r hr
      simp only [simRecords, List.mem_map] at hr
      obtain ⟨j, _, rfl⟩ := hr
      exact trialRecord_vol_nan g rets _ rf j h2 hA
    have hmin : argminStat (fun r : TrialRecord => r.vol)
        (simRecords rets index rf n g) = none :=
      argminStat_eq_none _ _ hvol
    simp only [simulate_portfolios]
    rw [hmax, hmin]
  · intro hn h2
    have hne : simRecords rets index rf n g ≠ [] := by
      intro hc
      rw [hc] at hlen
      simp at hlen
      omega
    obtain ⟨a, t, hat⟩ := List.exists_cons_of_ne_nil hne
    have hmax : argmaxBy (fun r : TrialRecord => r.sharpe)
        (simRecords rets index rf n g) =
        some (argmaxGo (fun r : TrialRecord => r.sharpe) a t) := by
      rw [hat]
      rfl
    have h0 : trialRecord g (numAssets rets)
        (mean_returns rets ((infer_periods_per_year index : ℚ) : ℝ))
        (cov_matrix rets ((infer_periods_per_year index : ℚ) : ℝ)) rf 0 ∈
        simRecords rets index rf n g := by
      simp only [simRecords, List.mem_map]
      exact ⟨0, List.mem_range.mpr (by omega), rfl⟩
    obtain ⟨v, hv⟩ := trialRecord_vol_isVal g rets
      ((infer_periods_per_year index : ℚ) : ℝ) rf 0 h2
    obtain ⟨mn, hmn⟩ := argminStat_isSome (fun r : TrialRecord => r.vol)
      (simRecords rets index rf n g) _ v h0 hv
    refine ⟨⟨simRecords rets index rf n g,
      argmaxGo (fun r : TrialRecord => r.sharpe) a t, mn⟩, ?_, rfl, hlen⟩
    simp only [simulate_portfolios]
    rw [hmax, hmn]

/-- Counterexample to C8 as stated: with a single asset and `n = 1` the
simulation succeeds (no `InvalidParameterError` despite fewer than 2
assets), and with `n = 0` the failure is the empty-`idxmax` error, not a
parameter-validation error. -/
theorem c8_counterexample :
    (∃ res, simulate_portfolios [[(1 : ℝ)], [2]] [0, 1] 0 1 unitStream = .ok res) ∧
    simulate_portfolios [[(1 : ℝ)], [2]] [0, 1] 0 0 unitStream =
      .error .emptyArgmax := by
  exact ⟨⟨_, rfl⟩, rfl⟩

/-- Witness for C8: a two-asset matrix with `n = 0` (empty-table failure)
and `n = 5` (success), and a single-row one-asset matrix with `n = 1`
(all-NaN-volatility failure). -/
theorem c8_simulate_no_validation_witness :
    simulate_portfolios [[(1 : ℝ), 2], [2, 1]] [0, 1] 0 0 unitStream =
      .error .emptyArgmax ∧
    simulate_portfolios [[(1 : ℝ)]] [0] 0 1 unitStream = .error .allNanIdxmin ∧
    ∃ res, simulate_portfolios [[(1 : ℝ), 2], [2, 1]] [0, 1] 0 5 unitStream =
      .ok res ∧
      res.records = simRecords [[(1 : ℝ), 2], [2, 1]] [0, 1] 0 5 unitStream ∧
      res.records.length = 5 :=
  ⟨(c8_simulate_no_validation [[(1 : ℝ), 2], [2, 1]] [0, 1] 0 0 unitStream).1 rfl,
   (c8_simulate_no_validation [[(1 : ℝ)]] [0] 0 1 unitStream).2.1
    (by decide) (by decide) (by decide),
   (c8_simulate_no_validation [[(1 : ℝ), 2], [2, 1]] [0, 1] 0 5 unitStream).2.2
    (by decide) (by decide)⟩

/-- C9 (amended): `infer_periods_per_year` is a pure function of the
timestamp index.  On a constant step of 1 or 2 days it yields 252, on a
7-day step 52, and frequencies pandas reports as monthly (`"M"`/`"MS"`
aliases, arising for calendar-month-aligned indexes) map to 12 — but a
plain constant step of 28 to 31 days is never classified as monthly: it
yields the default 252, because the code classifies pandas' inferred
calendar frequency, not the raw spacing. -/
theorem c9_frequency_classification (idx : List ℤ) (d : ℤ) (k : ℕ)
    (h3 : 3 ≤ idx.length) (hd : diffs idx = List.replicate k d) :
    ((d = 1 ∨ d = 2) → infer_periods_per_year idx = 252) ∧
    (d = 7 → infer_periods_per_year idx = 52) ∧
    (28 ≤ d ∧ d ≤ 31 → infer_periods_per_year idx = 252) ∧
    freq_to_periods (some "M") = 12 ∧ freq_to_periods (some "MS") = 12 := by
  have hk : 2 ≤ k := by
    have hlen := diffs_length idx
    rw [hd] at hlen
    simp at hlen
    omega
  obtain ⟨m, rfl⟩ : ∃ m, k = m + 1 := ⟨k - 1, by omega⟩
  have hif : infer_freq idx = classifyStep d := by
    simp only [infer_freq]
    rw [if_neg (by omega), hd, List.replicate_succ]
    simp [all_replicate_beq]
  have hip : infer_periods_per_year idx = freq_to_periods (classifyStep d) := by
    simp only [infer_periods_per_year, hif]
  refine ⟨?_, ?_, ?_, by decide, by decide⟩
  · rintro (rfl | rfl) <;> rw [hip] <;> decide
  · rintro rfl
    rw [hip]
    decide
  · rintro ⟨h28, h31⟩
    rw [hip]
    interval_cases d <;> decide

/-- Counterexample to C9 as stated: an index spaced exactly 30 days apart
(not calendar-month-aligned) has step within 28–31 days, so the claim's
classification demands 12 periods per year, but the code returns the
default 252 (`pd.infer_freq` reports `"30D"`, which matches none of the
`B`/`D`/`W`/`M` prefixes). -/
theorem c9_counterexample :
    infer_periods_per_year [0, 30, 60, 90] = 252 ∧
    inferFrequencySpec 30 = 12 ∧ (252 : ℚ) ≠ 12 := by
  refine ⟨by decide, by decide, by norm_num⟩

/-- Witness for C9 on a daily-spaced index of three timestamps. -/
theorem c9_frequency_classification_witness :
    infer_periods_per_year [0, 1, 2] = 252 :=
  (c9_frequency_classification [0, 1, 2] 1 2 (by decide) (by decide)).1 (Or.inl rfl)

/-- C10 (amended): for every non-empty horizon-scaled results table, every
risk tier leaves a non-empty candidate set (for `Low`, the
minimum-volatility record is always ≤ the 25th-percentile threshold), and
goals `Capital Preservation`, `High Risk-High Return` and `Balanced`
always select and return a record of the candidate set.  Goal `Long-Term
Growth` (`Sharpe_h.idxmax()`) also returns a record whenever at least one
candidate's `Sharpe_h` is not NaN; on an all-NaN `Sharpe_h` column (the
0/0 of the unguarded horizon division, e.g. all volatilities zero with
`return_h = rf·h`) `idxmax` fails instead of returning a record.  So the
empty-candidate failure is unreachable, but the all-NaN-Sharpe failure of
`Long-Term Growth` is not. -/
theorem c10_selection (recs : List SRecord) (hne : recs ≠ [])
    (t : RiskTier) (gl : Goal) :
    riskFilter t recs ≠ [] ∧
    (gl ≠ .longTermGrowth →
      ∃ r, selectGoal gl (riskFilter t recs) = some r ∧ r ∈ riskFilter t recs) ∧
    ((∃ x ∈ riskFilter t recs, x.sharpe_h ≠ QVal.nan) →
      ∃ r, selectGoal .longTermGrowth (riskFilter t recs) = some r ∧
        r ∈ riskFilter t recs) := by
  have hf : riskFilter t recs ≠ [] := by
    cases t with
    | low =>
      obtain ⟨v, hv, hle⟩ := exists_le_quantileLinear (recs.map fun r => r.vol_h)
        (by simpa using hne)
      obtain ⟨r, hr, rfl⟩ := List.mem_map.mp hv
      refine List.ne_nil_of_mem (a := r) ?_
      simp only [riskFilter, List.mem_filter, decide_eq_true_eq]
      exact ⟨hr, hle⟩
    | moderate => simpa [riskFilter] using hne
    | high => simpa [riskFilter] using hne
  refine ⟨hf, ?_, ?_⟩
  · intro hgl
    cases gl with
    | capitalPreservation =>
      obtain ⟨r, h1, h2, _⟩ := argminBy_spec (fun r : SRecord => r.vol_h) _ hf
      exact ⟨r, h1, h2⟩
    | highRiskHighReturn =>
      obtain ⟨r, h1, h2, _⟩ := argmaxBy_spec (fun r : SRecord => r.ret_h) _ hf
      exact ⟨r, h1, h2⟩
    | longTermGrowth => exact absurd rfl hgl
    | balanced =>
      obtain ⟨r, h1, h2, _⟩ := argminBy_spec
        (fun r : SRecord =>
          |r.vol_h - medianQ ((riskFilter t recs).map fun s => s.vol_h)|) _ hf
      exact ⟨r, h1, h2⟩
  · rintro ⟨x, hx, hnn⟩
    obtain ⟨r, hr, hrm⟩ := argmaxQ_spec (fun r : SRecord => r.sharpe_h) _ x hx hnn
    exact ⟨r, hr, hrm⟩

/-- Counterexample to C10 as stated: a one-record table whose `Sharpe_h`
is NaN — the unguarded 0/0 of the horizon adjuster, realizable with all
volatilities 0 and `return_h = rf·h` (for example constant prices with
`rf = 0`).  The `High` risk tier keeps the record, so the candidate set is
non-empty, yet goal `Long-Term Growth` returns no record:
`Sharpe_h.idxmax()` on the all-NaN column fails instead of selecting. -/
theorem c10_counterexample :
    riskFilter .high [(⟨0, 0, QVal.nan, []⟩ : SRecord)] ≠ [] ∧
    selectGoal .longTermGrowth
      (riskFilter .high [(⟨0, 0, QVal.nan, []⟩ : SRecord)]) = none := by
  exact ⟨by simp [riskFilter], rfl⟩

/-- Witness for C10 on a concrete one-record table with a finite
`Sharpe_h`: risk tier `High` with goal `Balanced`, and goal `Long-Term
Growth` on the same candidate set. -/
theorem c10_selection_witness :
    (∃ r, selectGoal .balanced
        (riskFilter .high [(⟨0, 1, QVal.val 1, []⟩ : SRecord)]) = some r ∧
      r ∈ riskFilter .high [(⟨0, 1, QVal.val 1, []⟩ : SRecord)]) ∧
    ∃ r, selectGoal .longTermGrowth
        (riskFilter .high [(⟨0, 1, QVal.val 1, []⟩ : SRecord)]) = some r ∧
      r ∈ riskFilter .high [(⟨0, 1, QVal.val 1, []⟩ : SRecord)] :=
  ⟨(c10_selection [⟨0, 1, QVal.val 1, []⟩] (by simp) .high .balanced).2.1
    (by decide),
   (c10_selection [⟨0, 1, QVal.val 1, []⟩] (by simp) .high .longTermGrowth).2.2
    (by decide)⟩

end PortfolioOpt
